import Mathlib

set_option linter.unusedVariables false

/-! Verification development for the MOOSE chunked-inference and label-merging
core: a shallow embedding of `moosez/predict.py` and
`moosez/utility/combine_multi_model_labels.py`, together with theorems about
the reconstruction pipeline, the prediction-routine planner and the
multi-model label merger. -/

/-- An N-dimensional array: a shape together with the voxel contents, accessed
by an index vector (one component per axis).  Models a numpy `ndarray`; only
in-bounds indices are meaningful. -/
structure NDArray (α : Type) where
  shape : List Nat
  data : List Nat → α

/-- Bounds check of an index vector against a shape: same rank and every
component strictly below the corresponding axis extent. -/
def validIdxB : List Nat → List Nat → Bool
  | [], [] => true
  | d :: ds, i :: is => decide (i < d) && validIdxB ds is
  | _, _ => false

/-- Extensional equality of arrays: equal shapes and equal voxel values at
every in-bounds index. -/
def equivArr {α : Type} (a b : NDArray α) : Prop :=
  a.shape = b.shape ∧ ∀ idx, validIdxB a.shape idx = true → a.data idx = b.data idx

/-- Embeds `chunk = chunk[None, ...]` (predict.py line 88): prepend a
singleton axis to a chunk. -/
def expandChunk {α : Type} (c : NDArray α) : NDArray α :=
  ⟨1 :: c.shape, fun idx => c.data idx.tail⟩

/-- Embeds the slice tuple of predict.py line 89:
`slice(pos * csize, pos * csize + csize)` for every axis, where `csize` is the
chunk's own extent along that axis. -/
def sliceBoundsFor (pos cshape : List Nat) : List (Nat × Nat) :=
  (pos.zip cshape).map (fun x => (x.1 * x.2, x.1 * x.2 + x.2))

/-- Whether a destination index lies inside every slice bound; axes beyond the
slice tuple are unconstrained, as in numpy basic indexing. -/
def idxInSlices (bounds : List (Nat × Nat)) (idx : List Nat) : Bool :=
  (bounds.zip idx).all (fun x => decide (x.1.1 ≤ x.2) && decide (x.2 < x.1.2))

/-- The source index inside a chunk corresponding to a destination index
inside the slice bounds: subtract each slice start. -/
def sliceSrcIdx (bounds : List (Nat × Nat)) (idx : List Nat) : List Nat :=
  ((idx.take bounds.length).zip bounds).map (fun x => x.1 - x.2.1) ++ idx.drop bounds.length

/-- Embeds `reconstructed_array[slices] = chunk` (predict.py lines 88-90):
one destination-slice assignment of one (batch-expanded) chunk. -/
def writeChunk {α : Type} (arr : NDArray α) (c : NDArray α) (pos : List Nat) : NDArray α :=
  ⟨arr.shape, fun idx =>
    if idxInSlices (sliceBoundsFor pos (expandChunk c).shape) idx then
      (expandChunk c).data (sliceSrcIdx (sliceBoundsFor pos (expandChunk c).shape) idx)
    else arr.data idx⟩

/-- The write loop of predict.py lines 87-90, folded over
`zip(chunks, chunk_positions)`. -/
def writeFold {α : Type} (l : List (NDArray α × List Nat)) (a : NDArray α) : NDArray α :=
  l.foldl (fun arr cp => writeChunk arr cp.1 cp.2) a

/-- Reinsert the components squeezed away by `np.squeeze`: for every axis of
extent 1 the component 0 is inserted, other axes take the next component of
the squeezed index. -/
def unsqueezeIdx : List Nat → List Nat → List Nat
  | [], _ => []
  | d :: ds, idx =>
    if d = 1 then 0 :: unsqueezeIdx ds idx
    else
      match idx with
      | [] => 0 :: unsqueezeIdx ds []
      | i :: is => i :: unsqueezeIdx ds is

/-- Embeds `np.squeeze` (predict.py line 92): remove every axis of extent 1. -/
def squeezeArr {α : Type} (a : NDArray α) : NDArray α :=
  ⟨a.shape.filter (fun d => d != 1), fun idx => a.data (unsqueezeIdx a.shape idx)⟩

/-- Embeds `reconstruct_array_from_chunks` (predict.py lines 84-92).  numpy's
`np.empty` allocates the output without initializing it; the arbitrary initial
contents are modelled by the explicit `uninit` argument. -/
def reconstruct_array_from_chunks {α : Type} (chunks : List (NDArray α))
    (chunk_positions : List (List Nat)) (original_shape : List Nat)
    (uninit : List Nat → α) : NDArray α :=
  squeezeArr (writeFold (chunks.zip chunk_positions) ⟨original_shape, uninit⟩)

/-- Embeds `image_array = image_array[None, ...]` (predict.py line 96):
prepend the artificial batch axis. -/
def expandBatch {α : Type} (v : NDArray α) : NDArray α :=
  ⟨1 :: v.shape, fun idx => v.data idx.tail⟩

/-- Modelled from the spec: the grid-chunking primitive (`dask.array.from_array`
with per-axis chunk extents, predict.py lines 97-98; `ImageResampler.chunk_along_axis`
supplies the per-axis chunk count and is not under src/).  An axis of length `d`
with rounded chunk extent `c` splits into `d / c` chunks of extent `c` followed,
when the division leaves a remainder, by one final smaller chunk absorbing it
(spec 4.1: remainders are absorbed into the final chunk along each axis). -/
def chunkSizesAlong (d c : Nat) : List Nat :=
  if c = 0 then []
  else List.replicate (d / c) c ++ (if d % c = 0 then [] else [d % c])

/-- Row-major enumeration of a grid of coordinates, as `np.ndindex` produces
them (predict.py line 72). -/
def gridPositions : List Nat → List (List Nat)
  | [] => [[]]
  | n :: rest => (List.range n).flatMap (fun i => (gridPositions rest).map (fun p => i :: p))

/-- Number of chunks per axis for a shape and per-axis chunk extents. -/
def chunkCounts (shape csizes : List Nat) : List Nat :=
  List.zipWith (fun d c => (chunkSizesAlong d c).length) shape csizes

/-- The grid coordinates of all chunks of a partition, in row-major order
(the `chunk_indices` list of predict.py lines 68-76). -/
def partitionPositions (shape csizes : List Nat) : List (List Nat) :=
  gridPositions (chunkCounts shape csizes)

/-- Three-list pointwise combination. -/
def zip3With {α β γ δ : Type} (f : α → β → γ → δ) : List α → List β → List γ → List δ
  | a :: as, b :: bs, c :: cs => f a b c :: zip3With f as bs cs
  | _, _, _ => []

/-- The shape of the chunk at a given grid coordinate. -/
def chunkShapeAt (shape csizes pos : List Nat) : List Nat :=
  zip3With (fun d c p => (chunkSizesAlong d c).getD p 0) shape csizes pos

/-- The offset of the chunk at a given grid coordinate: along each axis all
earlier chunks have the uniform extent `c`. -/
def offsetAt (csizes pos : List Nat) : List Nat :=
  List.zipWith (fun c p => c * p) csizes pos

/-- The chunk of a volume at a given grid coordinate: a view of the volume
shifted by the chunk offset. -/
def extractChunk {α : Type} (v : NDArray α) (csizes pos : List Nat) : NDArray α :=
  ⟨chunkShapeAt v.shape csizes pos,
   fun idx => v.data (List.zipWith (· + ·) (offsetAt csizes pos) idx)⟩

/-- All chunks of the partition of a volume, aligned with `partitionPositions`. -/
def partitionChunks {α : Type} (v : NDArray α) (csizes : List Nat) : List (NDArray α) :=
  (partitionPositions v.shape csizes).map (extractChunk v csizes)

/-- Drop the leading batch axis from a per-chunk result, as the inference
engine's per-chunk segmentations carry only the spatial axes (which is why
predict.py line 88 re-expands them). -/
def stripBatch {α : Type} (c : NDArray α) : NDArray α :=
  ⟨c.shape.tail, fun idx => c.data (0 :: idx)⟩

/-- A concrete one-axis volume holding `[10, 20, 30]`. -/
def vol3 : NDArray Int :=
  ⟨[3], fun idx => 10 * (Int.ofNat (idx.headD 0) + 1)⟩

/-- The identity-inference segmentations of the chunks of `vol3` partitioned
with chunk extent 2 along its single spatial axis (so chunk extents `[2, 1]`,
an uneven division of 3). -/
def vol3Segs : List (NDArray Int) :=
  (partitionChunks (expandBatch vol3) [1, 2]).map stripBatch

/-- The grid coordinates of the chunks of `vol3Segs`. -/
def vol3Poss : List (List Nat) :=
  partitionPositions (expandBatch vol3).shape [1, 2]

/-- The write loop never changes the allocated shape. -/
theorem writeFold_shape {α : Type} (l : List (NDArray α × List Nat)) (a : NDArray α) :
    (writeFold l a).shape = a.shape := by
  induction l generalizing a with
  | nil => rfl
  | cons c t ih =>
    simpa [writeFold, List.foldl_cons] using ih (writeChunk a c.1 c.2)

/-- C1: the round-trip `reconstruct(partition(V)) == V` fails as soon as some
axis length is not evenly divisible by the chunk extent: for the concrete
volume `[10, 20, 30]` partitioned with chunk extent 2 along its spatial axis
(chunks `[10, 20]` and `[30]`), the reconstruction places the final smaller
chunk at offset `position * own_size = 1 * 1 = 1` instead of 2, so the
reconstructed array holds 30 at index 1 where the original volume holds 20 —
for every possible content of the uninitialized allocation. -/
theorem c1_roundtrip_fails_on_uneven_axis : ∀ u : List Nat → Int,
    (reconstruct_array_from_chunks vol3Segs vol3Poss (expandBatch vol3).shape u).data [1] = 30 ∧
    vol3.data [1] = 20 ∧ (30 : Int) ≠ 20 :=
  fun u => ⟨rfl, rfl, by decide⟩

/-- A chunk of extent 1 holding `[10]`. -/
def badChunkA : NDArray Int := ⟨[1], fun _ => 10⟩

/-- A chunk of extent 2 holding `[20, 30]`. -/
def badChunkB : NDArray Int := ⟨[2], fun idx => 20 + 10 * Int.ofNat (idx.headD 0)⟩

/-- A chunk of extent 1 holding `[40]`. -/
def badChunkC : NDArray Int := ⟨[1], fun _ => 40⟩

/-- C5: `reconstruct_array_from_chunks` performs no validation of the chunk
sizes.  For chunk extents `[1], [2], [1]` at grid positions 0, 1, 2 along one
axis (irregular: the chunks before the last do not share one size), it silently
returns a corrupted array instead of reporting a structural error: voxel 1 is
never written (it keeps the uninitialized allocation's content), chunk B's
first value 20 is overwritten, and chunk C's value 40 lands at offset
`2 * 1 = 2` inside chunk B's slice rather than at its own position. -/
theorem c5_no_validation_corrupts : ∀ u : List Nat → Int,
    (reconstruct_array_from_chunks [badChunkA, badChunkB, badChunkC]
        [[0, 0], [0, 1], [0, 2]] [1, 4] u).data [0] = 10 ∧
    (reconstruct_array_from_chunks [badChunkA, badChunkB, badChunkC]
        [[0, 0], [0, 1], [0, 2]] [1, 4] u).data [1] = u [0, 1] ∧
    (reconstruct_array_from_chunks [badChunkA, badChunkB, badChunkC]
        [[0, 0], [0, 1], [0, 2]] [1, 4] u).data [2] = 40 ∧
    (reconstruct_array_from_chunks [badChunkA, badChunkB, badChunkC]
        [[0, 0], [0, 1], [0, 2]] [1, 4] u).data [3] = 30 :=
  fun u => ⟨rfl, rfl, rfl, rfl⟩

/-- A chunk of spatial shape `[2, 1]` holding `[[1], [2]]`. -/
def colChunk : NDArray Int := ⟨[2, 1], fun idx => Int.ofNat (idx.headD 0) + 1⟩

/-- C6 counterexample: for the original shape `(1, 2, 1)` — a trailing
singleton axis of the volume besides the artificial leading batch axis — the
reconstruction returns shape `[2]`, not `[2, 1]`: the trailing singleton axis
is removed as well, refuting the claim that exactly the leading one goes. -/
theorem c6_squeeze_removes_trailing_singleton :
    (reconstruct_array_from_chunks [colChunk] [[0, 0, 0]] [1, 2, 1]
        (fun _ => (0 : Int))).shape = [2] ∧
    (reconstruct_array_from_chunks [colChunk] [[0, 0, 0]] [1, 2, 1]
        (fun _ => (0 : Int))).shape ≠ [2, 1] :=
  ⟨rfl, by decide⟩

/-- C6 amended: `reconstruct_array_from_chunks` ends with `np.squeeze`, which
removes every axis of extent 1 of the original shape — leading, interior and
trailing alike — and preserves all other axes in order. -/
theorem c6_squeeze_removes_all_singletons {α : Type} (chunks : List (NDArray α))
    (chunk_positions : List (List Nat)) (original_shape : List Nat)
    (uninit : List Nat → α) :
    (reconstruct_array_from_chunks chunks chunk_positions original_shape uninit).shape =
      original_shape.filter (fun d => d != 1) := by
  simp [reconstruct_array_from_chunks, squeezeArr, writeFold_shape]

/-- Whether the destination slices of the chunks jointly cover every in-bounds
index of the (pre-squeeze) output shape. -/
def coveredB {α : Type} (chunks : List (NDArray α)) (chunk_positions : List (List Nat))
    (original_shape : List Nat) : Bool :=
  (gridPositions original_shape).all (fun idx =>
    (chunks.zip chunk_positions).any (fun cp =>
      idxInSlices (sliceBoundsFor cp.2 (expandChunk cp.1).shape) idx))

/-- Every in-bounds index of a shape occurs in its row-major enumeration. -/
theorem mem_gridPositions_of_valid : ∀ (shape idx : List Nat),
    validIdxB shape idx = true → idx ∈ gridPositions shape
  | [], [], _ => by simp [gridPositions]
  | [], _ :: _, h => by simp [validIdxB] at h
  | _ :: _, [], h => by simp [validIdxB] at h
  | d :: ds, i :: is, h => by
    simp only [validIdxB, Bool.and_eq_true, decide_eq_true_eq] at h
    simp only [gridPositions, List.mem_flatMap, List.mem_map, List.mem_range]
    exact ⟨i, h.1, is, mem_gridPositions_of_valid ds is h.2, rfl⟩

/-- Unsqueezing an in-bounds index of the squeezed shape yields an in-bounds
index of the full shape. -/
theorem validIdxB_unsqueeze : ∀ (shape idx : List Nat),
    validIdxB (shape.filter (fun d => d != 1)) idx = true →
    validIdxB shape (unsqueezeIdx shape idx) = true := by
  intro shape
  induction shape with
  | nil => intro idx h; rfl
  | cons d ds ih =>
    intro idx h
    by_cases hd : d = 1
    · subst hd
      simp only [List.filter_cons, show ((1 : Nat) != 1) = false by decide, if_false] at h
      simp only [unsqueezeIdx, if_pos rfl, validIdxB, Bool.and_eq_true, decide_eq_true_eq]
      exact ⟨Nat.zero_lt_one, ih idx h⟩
    · have hdb : (d != 1) = true := by simpa using hd
      simp only [List.filter_cons, hdb, if_true] at h
      cases idx with
      | nil => simp [validIdxB] at h
      | cons i is =>
        simp only [validIdxB, Bool.and_eq_true, decide_eq_true_eq] at h
        simp only [unsqueezeIdx, if_neg hd, validIdxB, Bool.and_eq_true, decide_eq_true_eq]
        exact ⟨h.1, ih is h.2⟩

/-- The write loop's result at an index depends on the initial allocation only
when no chunk's destination slices contain that index. -/
theorem writeFold_congr {α : Type} :
    ∀ (l : List (NDArray α × List Nat)) (a b : NDArray α) (idx : List Nat),
    (a.data idx = b.data idx ∨
      ∃ cp ∈ l, idxInSlices (sliceBoundsFor cp.2 (expandChunk cp.1).shape) idx = true) →
    (writeFold l a).data idx = (writeFold l b).data idx := by
  intro l
  induction l with
  | nil =>
    intro a b idx h
    rcases h with h | ⟨cp, hcp, _⟩
    · simpa [writeFold] using h
    · simp at hcp
  | cons c t ih =>
    intro a b idx h
    have ha : writeFold (c :: t) a = writeFold t (writeChunk a c.1 c.2) := by
      simp [writeFold]
    have hb : writeFold (c :: t) b = writeFold t (writeChunk b c.1 c.2) := by
      simp [writeFold]
    rw [ha, hb]
    apply ih
    by_cases hc : idxInSlices (sliceBoundsFor c.2 (expandChunk c.1).shape) idx = true
    · left
      simp [writeChunk, hc]
    · rcases h with h | ⟨cp, hcp, hcov⟩
      · left
        simp [writeChunk, hc, h]
      · rcases List.mem_cons.mp hcp with hcpc | hm
        · rw [hcpc] at hcov
          exact absurd hcov hc
        · right
          exact ⟨cp, hm, hcov⟩

/-- C10: the output of `reconstruct_array_from_chunks` is allocated by
`np.empty` without initialization (modelled by the `uninit` argument), so the
result is a well-defined function of the chunks, positions and shape exactly
under the precondition that the destination slices jointly cover the output:
when they cover it, the result does not depend on the allocation's initial
contents; and, at the concrete input `[badChunkA]` at position `(0, 0)` in
shape `(1, 2)` which leaves voxel 1 uncovered, two allocations with different
initial contents produce different values at the uncovered voxel. -/
theorem c10_uninitialized_output :
    (∀ (α : Type) (chunks : List (NDArray α)) (chunk_positions : List (List Nat))
        (original_shape : List Nat),
      coveredB chunks chunk_positions original_shape = true →
      ∀ uninit uninit2 : List Nat → α,
        equivArr
          (reconstruct_array_from_chunks chunks chunk_positions original_shape uninit)
          (reconstruct_array_from_chunks chunks chunk_positions original_shape uninit2)) ∧
    ((reconstruct_array_from_chunks [badChunkA] [[0, 0]] [1, 2]
        (fun _ => (0 : Int))).data [1] = 0 ∧
     (reconstruct_array_from_chunks [badChunkA] [[0, 0]] [1, 2]
        (fun _ => (7 : Int))).data [1] = 7) := by
  refine ⟨?_, rfl, rfl⟩
  intro α chunks chunk_positions original_shape hcov u1 u2
  constructor
  · simp [reconstruct_array_from_chunks, squeezeArr, writeFold_shape]
  · intro idx hvalid
    simp only [reconstruct_array_from_chunks, squeezeArr, writeFold_shape] at hvalid ⊢
    apply writeFold_congr
    right
    have hmem : unsqueezeIdx original_shape idx ∈ gridPositions original_shape :=
      mem_gridPositions_of_valid _ _ (validIdxB_unsqueeze _ _ hvalid)
    exact List.any_eq_true.mp (List.all_eq_true.mp hcov _ hmem)

/-- Witness for C10: at a concrete covering input the reconstruction is
independent of the uninitialized allocation's contents. -/
theorem c10_uninitialized_output_witness :
    coveredB [badChunkA] [[0, 0]] [1, 1] = true ∧
    equivArr (reconstruct_array_from_chunks [badChunkA] [[0, 0]] [1, 1] (fun _ => (0 : Int)))
      (reconstruct_array_from_chunks [badChunkA] [[0, 0]] [1, 1] (fun _ => (7 : Int))) :=
  ⟨rfl, c10_uninitialized_output.1 Int [badChunkA] [[0, 0]] [1, 1] rfl _ _⟩

/-- A voxel-spacing tuple.  The registry's spacing values are opaque keys
compared componentwise by value (Python tuples of numbers as dict keys); only
equality of spacings matters to the planner, so components are modelled as
integers. -/
abbrev Spacing := List Int

/-- The argument of `construct_prediction_routine` (predict.py line 121):
either a single model identifier string or a list of identifiers. -/
inductive ModelsArg where
  | ofStr (s : String)
  | ofList (l : List String)

/-- One step of the routine construction (predict.py lines 129-132): append
the model to the group of its spacing if that key exists, otherwise add a new
group at the end (Python dicts keep insertion order). -/
def routineInsert (acc : List (Spacing × List String)) (sp : Spacing) (m : String) :
    List (Spacing × List String) :=
  match acc with
  | [] => [(sp, [m])]
  | (k, g) :: rest =>
    if k = sp then (k, g ++ [m]) :: rest else (k, g) :: routineInsert rest sp m

/-- The loop of `construct_prediction_routine` (predict.py lines 125-134) over
an identifier list.  Modelled from the spec: the module-level registry
(`AVAILABLE_MODELS` / `MODELS` of moosez.resources, not under src/) is one
mapping from identifier to required voxel spacing; an identifier is available
exactly when the registry holds a spacing for it. -/
def construct_prediction_routine_list (registry : String → Option Spacing)
    (models : List String) : List (Spacing × List String) :=
  models.foldl (fun acc m =>
    match registry m with
    | none => acc
    | some sp => routineInsert acc sp m) []

/-- Embeds `construct_prediction_routine` (predict.py lines 121-134): a bare
string argument is wrapped into the one-element list containing it. -/
def construct_prediction_routine (registry : String → Option Spacing) :
    ModelsArg → List (Spacing × List String)
  | ModelsArg.ofStr s => construct_prediction_routine_list registry [s]
  | ModelsArg.ofList l => construct_prediction_routine_list registry l

/-- Total number of occurrences of an identifier across all groups of a
routine. -/
def routineCount (routine : List (Spacing × List String)) (m : String) : Nat :=
  (routine.map (fun g => g.2.count m)).sum

/-- C9: passing a single identifier string produces exactly the routine of the
one-element list containing it. -/
theorem c9_string_wraps_to_singleton (registry : String → Option Spacing) (s : String) :
    construct_prediction_routine registry (ModelsArg.ofStr s) =
      construct_prediction_routine registry (ModelsArg.ofList [s]) := rfl

/-- Inserting one identifier adds exactly one occurrence of it, and of nothing
else, to the routine. -/
theorem routineCount_insert (acc : List (Spacing × List String)) (sp : Spacing)
    (x m : String) :
    routineCount (routineInsert acc sp x) m =
      routineCount acc m + (if x = m then 1 else 0) := by
  induction acc with
  | nil =>
    simp only [routineInsert, routineCount, List.map_cons, List.sum_cons, List.map_nil,
      List.sum_nil, List.count_cons, List.count_nil, beq_iff_eq]
    omega
  | cons hd t ih =>
    rcases hd with ⟨k, g⟩
    by_cases hk : k = sp
    · simp only [routineInsert, if_pos hk, routineCount, List.map_cons, List.sum_cons,
        List.count_append, List.count_cons, List.count_nil, beq_iff_eq]
      omega
    · simp only [routineInsert, if_neg hk, routineCount, List.map_cons, List.sum_cons]
      have h2 := ih
      simp only [routineCount] at h2
      omega

/-- The fold step of `construct_prediction_routine_list`. -/
def routineStep (registry : String → Option Spacing)
    (acc : List (Spacing × List String)) (m : String) : List (Spacing × List String) :=
  match registry m with
  | none => acc
  | some sp => routineInsert acc sp m

/-- `construct_prediction_routine_list` as a fold of `routineStep`. -/
theorem construct_prediction_routine_list_eq (registry : String → Option Spacing)
    (models : List String) :
    construct_prediction_routine_list registry models =
      models.foldl (routineStep registry) [] := rfl

/-- Occurrence count after the planner loop: the initial count plus, when the
identifier is in the registry, its occurrence count in the request list. -/
theorem routineCount_loop (registry : String → Option Spacing) (m : String) :
    ∀ (l : List String) (acc : List (Spacing × List String)),
    routineCount (l.foldl (routineStep registry) acc) m =
      routineCount acc m + (if registry m = none then 0 else l.count m) := by
  intro l
  induction l with
  | nil => intro acc; simp
  | cons h t ih =>
    intro acc
    simp only [List.foldl_cons]
    by_cases hm : h = m
    · subst hm
      cases hr : registry h with
      | none =>
        rw [show routineStep registry acc h = acc by simp [routineStep, hr]]
        rw [ih]
        simp [hr, List.count_cons]
      | some sp =>
        rw [show routineStep registry acc h = routineInsert acc sp h by simp [routineStep, hr]]
        rw [ih, routineCount_insert]
        simp [hr, List.count_cons]
        omega
    · have hcount : (h :: t).count m = t.count m := by
        simp [List.count_cons, hm]
      cases hr : registry h with
      | none =>
        rw [show routineStep registry acc h = acc by simp [routineStep, hr]]
        rw [ih, hcount]
      | some sp =>
        rw [show routineStep registry acc h = routineInsert acc sp h by simp [routineStep, hr]]
        rw [ih, routineCount_insert, hcount]
        simp [hm]

/-- Group membership after one insertion: the member was already in a group of
the accumulator, or it is the inserted identifier in the group of its spacing. -/
theorem mem_routineInsert (sp : Spacing) (x y : String) :
    ∀ (acc : List (Spacing × List String)) (k : Spacing) (g : List String),
    (k, g) ∈ routineInsert acc sp x → y ∈ g →
    (∃ g0, (k, g0) ∈ acc ∧ y ∈ g0) ∨ (y = x ∧ k = sp) := by
  intro acc
  induction acc with
  | nil =>
    intro k g hkg hy
    simp only [routineInsert, List.mem_singleton, Prod.mk.injEq] at hkg
    rcases hkg with ⟨hk, hg⟩
    subst hk; subst hg
    right
    simpa using hy
  | cons hd t ih =>
    rcases hd with ⟨k0, g0⟩
    intro k g hkg hy
    by_cases hk0 : k0 = sp
    · simp only [routineInsert, if_pos hk0, List.mem_cons, Prod.mk.injEq] at hkg
      rcases hkg with ⟨hk, hg⟩ | hmem
      · subst hk; subst hg
        rcases List.mem_append.mp hy with hy0 | hyx
        · exact Or.inl ⟨g0, List.mem_cons_self _ _, hy0⟩
        · exact Or.inr ⟨List.mem_singleton.mp hyx, hk0⟩
      · exact Or.inl ⟨g, List.mem_cons_of_mem _ hmem, hy⟩
    · simp only [routineInsert, if_neg hk0, List.mem_cons, Prod.mk.injEq] at hkg
      rcases hkg with ⟨hk, hg⟩ | hmem
      · subst hk; subst hg
        exact Or.inl ⟨g, List.mem_cons_self _ _, hy⟩
      · rcases ih k g hmem hy with ⟨g1, hg1, hyg1⟩ | hr
        · exact Or.inl ⟨g1, List.mem_cons_of_mem _ hg1, hyg1⟩
        · exact Or.inr hr

/-- Group membership after the planner loop: a member of a final group was in
the accumulator already, or the registry assigns it exactly that group's
spacing key. -/
theorem mem_routine_loop (registry : String → Option Spacing) (y : String) :
    ∀ (l : List String) (acc : List (Spacing × List String)) (k : Spacing)
      (g : List String),
    (k, g) ∈ l.foldl (routineStep registry) acc → y ∈ g →
    (∃ g0, (k, g0) ∈ acc ∧ y ∈ g0) ∨ registry y = some k := by
  intro l
  induction l with
  | nil =>
    intro acc k g hkg hy
    exact Or.inl ⟨g, hkg, hy⟩
  | cons h t ih =>
    intro acc k g hkg hy
    simp only [List.foldl_cons] at hkg
    cases hr : registry h with
    | none =>
      rw [show routineStep registry acc h = acc by simp [routineStep, hr]] at hkg
      exact ih acc k g hkg hy
    | some sp =>
      rw [show routineStep registry acc h = routineInsert acc sp h by
        simp [routineStep, hr]] at hkg
      rcases ih _ k g hkg hy with ⟨g0, hg0, hyg0⟩ | hreg
      · rcases mem_routineInsert sp h y acc k g0 hg0 hyg0 with hacc | ⟨hyh, hksp⟩
        · exact Or.inl hacc
        · subst hyh; subst hksp
          exact Or.inr hr
      · exact Or.inr hreg

/-- The spacing keys of a routine, in insertion order. -/
def routineKeys (routine : List (Spacing × List String)) : List Spacing :=
  routine.map Prod.fst

/-- Inserting an identifier either keeps the key list or appends the new
spacing key at the end. -/
theorem routineKeys_insert (sp : Spacing) (x : String) :
    ∀ (acc : List (Spacing × List String)),
    routineKeys (routineInsert acc sp x) =
      if sp ∈ routineKeys acc then routineKeys acc else routineKeys acc ++ [sp] := by
  intro acc
  induction acc with
  | nil => simp [routineInsert, routineKeys]
  | cons hd t ih =>
    rcases hd with ⟨k0, g0⟩
    by_cases hk0 : k0 = sp
    · simp [routineInsert, if_pos hk0, routineKeys, hk0]
    · have hne : sp ≠ k0 := fun h => hk0 h.symm
      simp only [routineInsert, if_neg hk0, routineKeys, List.map_cons]
      simp only [routineKeys] at ih
      rw [ih]
      by_cases hmem : sp ∈ t.map Prod.fst
      · simp [hmem, List.mem_cons, hne]
      · simp [hmem, List.mem_cons, hne]

/-- The planner loop keeps the spacing keys duplicate-free. -/
theorem routineKeys_loop_nodup (registry : String → Option Spacing) :
    ∀ (l : List String) (acc : List (Spacing × List String)),
    (routineKeys acc).Nodup → (routineKeys (l.foldl (routineStep registry) acc)).Nodup := by
  intro l
  induction l with
  | nil => intro acc h; exact h
  | cons h t ih =>
    intro acc hacc
    simp only [List.foldl_cons]
    apply ih
    cases hr : registry h with
    | none =>
      rw [show routineStep registry acc h = acc by simp [routineStep, hr]]
      exact hacc
    | some sp =>
      rw [show routineStep registry acc h = routineInsert acc sp h by
        simp [routineStep, hr]]
      rw [routineKeys_insert]
      by_cases hmem : sp ∈ routineKeys acc
      · simp only [if_pos hmem]
        exact hacc
      · simp only [if_neg hmem]
        exact hacc.append (List.nodup_singleton sp)
          (fun a ha hb => hmem (by rwa [List.mem_singleton.mp hb] at ha))

/-- A registry holding only the identifier "a", at spacing `[1]`. -/
def regA : String → Option Spacing := fun s => if s = "a" then some [1] else none

/-- A registry holding the identifiers "valid_a" and "valid_b", both at
spacing `[1]`. -/
def regVal : String → Option Spacing := fun s =>
  if s = "valid_a" ∨ s = "valid_b" then some [1] else none

/-- C2 counterexample: requesting the registry-present identifier "a" twice
places it twice inside its one spacing group — the claim that no identifier
appears twice within one group even under repeated requests is false. -/
theorem c2_duplicate_request_duplicated :
    construct_prediction_routine regA (ModelsArg.ofList ["a", "a"]) = [([1], ["a", "a"])] ∧
    routineCount (construct_prediction_routine regA (ModelsArg.ofList ["a", "a"])) "a" = 2 :=
  ⟨rfl, rfl⟩

/-- C2 amended: for a duplicate-free request list, every registry-present
requested identifier occurs exactly once in the whole output and only inside
groups keyed by its own spacing (whose keys are duplicate-free, so inside
exactly one group); identifiers absent from the registry, or not requested,
occur nowhere.  A registry-present identifier requested k times occurs k
times inside its single group, so the original no-duplication claim holds
only for duplicate-free requests. -/
theorem c2_routine_partition_nodup (registry : String → Option Spacing)
    (l : List String) (hnd : l.Nodup) :
    (∀ m, registry m = none →
      routineCount (construct_prediction_routine registry (ModelsArg.ofList l)) m = 0) ∧
    (∀ m, m ∈ l → registry m ≠ none →
      routineCount (construct_prediction_routine registry (ModelsArg.ofList l)) m = 1) ∧
    (∀ m, m ∉ l →
      routineCount (construct_prediction_routine registry (ModelsArg.ofList l)) m = 0) ∧
    (∀ m k g, (k, g) ∈ construct_prediction_routine registry (ModelsArg.ofList l) →
      m ∈ g → registry m = some k) ∧
    (routineKeys (construct_prediction_routine registry (ModelsArg.ofList l))).Nodup := by
  have hc : construct_prediction_routine registry (ModelsArg.ofList l) =
      l.foldl (routineStep registry) [] := rfl
  refine ⟨?_, ?_, ?_, ?_, ?_⟩
  · intro m hm
    rw [hc, routineCount_loop]
    simp [routineCount, hm]
  · intro m hmem hm
    rw [hc, routineCount_loop]
    have h1 : l.count m = 1 := List.count_eq_one_of_mem hnd hmem
    simp [routineCount, hm, h1]
  · intro m hmem
    rw [hc, routineCount_loop]
    have h0 : l.count m = 0 := List.count_eq_zero_of_not_mem hmem
    simp [routineCount, h0]
  · intro m k g hkg hm
    rw [hc] at hkg
    rcases mem_routine_loop registry m l [] k g hkg hm with ⟨g0, hg0, _⟩ | h
    · simp at hg0
    · exact h
  · rw [hc]
    exact routineKeys_loop_nodup registry l [] (by simp [routineKeys])

/-- Witness for C2 (spec scenario C): requesting
`["valid_a", "unknown_x", "valid_b"]` against `regVal` gives exactly one
occurrence of "valid_a", none of the unknown identifier, and duplicate-free
spacing keys. -/
theorem c2_routine_partition_nodup_witness :
    routineCount (construct_prediction_routine regVal
      (ModelsArg.ofList ["valid_a", "unknown_x", "valid_b"])) "valid_a" = 1 ∧
    routineCount (construct_prediction_routine regVal
      (ModelsArg.ofList ["valid_a", "unknown_x", "valid_b"])) "unknown_x" = 0 ∧
    (routineKeys (construct_prediction_routine regVal
      (ModelsArg.ofList ["valid_a", "unknown_x", "valid_b"]))).Nodup :=
  ⟨(c2_routine_partition_nodup regVal ["valid_a", "unknown_x", "valid_b"]
      (by decide)).2.1 "valid_a" (by decide) (by decide),
   (c2_routine_partition_nodup regVal ["valid_a", "unknown_x", "valid_b"]
      (by decide)).1 "unknown_x" (by decide),
   (c2_routine_partition_nodup regVal ["valid_a", "unknown_x", "valid_b"]
      (by decide)).2.2.2.2⟩

/-- An organ-index map: ordered entries of label index and organ name
(a Python dict keyed by positive integer label index, spec section 3). -/
abbrev OrganIndexMap := List (Nat × String)

/-- The largest label index of a map (0 when empty). -/
def maxIndex (m : OrganIndexMap) : Nat :=
  m.foldr (fun e a => max e.1 a) 0

/-- Modelled from the spec: `image_processing.add_model_label_image`
(combine_multi_model_labels.py line 22; the moosez.image_processing module is
not under src/).  Per voxel, the merged label is the accumulator's label when
nonzero, otherwise the overlay's label remapped — spec 4.5 — to an index
guaranteed not to collide with any index of the accumulator's map, realized by
shifting overlay indices past the accumulator's maximum index; the merged map
keeps every accumulator entry unchanged and adds every overlay entry under its
shifted index (spec scenario B: `{1: liver}` merged with `{1: lung}` gives
`{1: liver, 2: lung}`).  Images are label volumes indexed by voxel. -/
def add_model_label_image (accImg : Nat → Nat) (accMap : OrganIndexMap)
    (ovImg : Nat → Nat) (ovMap : OrganIndexMap) : (Nat → Nat) × OrganIndexMap :=
  (fun v => if accImg v ≠ 0 then accImg v
            else if ovImg v ≠ 0 then ovImg v + maxIndex accMap else 0,
   accMap ++ ovMap.map (fun e => (e.1 + maxIndex accMap, e.2)))

/-- The sequential merge fold of combine_multi_model_labels.py lines 18-22:
the first model's pair is the accumulator, later pairs are merged in order. -/
def mergeAll (base : (Nat → Nat) × OrganIndexMap)
    (rest : List ((Nat → Nat) × OrganIndexMap)) : (Nat → Nat) × OrganIndexMap :=
  rest.foldl (fun a p => add_model_label_image a.1 a.2 p.1 p.2) base

/-- A well-formed organ-index map: duplicate-free indices, all positive
(index 0 is reserved for background, spec section 3). -/
def validMap (m : OrganIndexMap) : Prop :=
  (m.map Prod.fst).Nodup ∧ ∀ e ∈ m, 0 < e.1

/-- Every entry's index is bounded by the map's maximum index. -/
theorem le_maxIndex : ∀ (m : OrganIndexMap) (e : Nat × String), e ∈ m → e.1 ≤ maxIndex m := by
  intro m
  induction m with
  | nil => intro e h; simp at h
  | cons hd t ih =>
    intro e h
    rcases List.mem_cons.mp h with he | ht
    · subst he
      exact Nat.le_max_left _ _
    · exact Nat.le_trans (ih e ht) (Nat.le_max_right _ _)

/-- The index list of a merged map. -/
theorem merge_step_fst (accMap ovMap : OrganIndexMap) (off : Nat) :
    (accMap ++ ovMap.map (fun e => (e.1 + off, e.2))).map Prod.fst =
      accMap.map Prod.fst ++ (ovMap.map Prod.fst).map (fun i => i + off) := by
  simp [List.map_append, List.map_map, Function.comp]

/-- One merge step preserves map well-formedness, keeps all indices pairwise
distinct and adds the two entry counts. -/
theorem merge_step_valid (accImg ovImg : Nat → Nat) (accMap ovMap : OrganIndexMap)
    (hacc : validMap accMap) (hov : validMap ovMap) :
    validMap (add_model_label_image accImg accMap ovImg ovMap).2 ∧
    (add_model_label_image accImg accMap ovImg ovMap).2.length =
      accMap.length + ovMap.length := by
  have hlen : (add_model_label_image accImg accMap ovImg ovMap).2.length =
      accMap.length + ovMap.length := by
    simp [add_model_label_image]
  refine ⟨⟨?_, ?_⟩, hlen⟩
  · have hfst : (add_model_label_image accImg accMap ovImg ovMap).2.map Prod.fst =
        accMap.map Prod.fst ++ (ovMap.map Prod.fst).map (fun i => i + maxIndex accMap) := by
      simp [add_model_label_image, List.map_append, List.map_map, Function.comp]
    rw [hfst]
    apply hacc.1.append
    · exact hov.1.map (add_left_injective (maxIndex accMap))
    · intro i hi hi2
      rcases List.mem_map.mp hi with ⟨e, he, hei⟩
      rcases List.mem_map.mp hi2 with ⟨j, hj, hji⟩
      rcases List.mem_map.mp hj with ⟨f, hf, hfj⟩
      have h1 : i ≤ maxIndex accMap := hei ▸ le_maxIndex accMap e he
      have h2 : 0 < j := hfj ▸ hov.2 f hf
      omega
  · intro e he
    simp only [add_model_label_image, List.mem_append, List.mem_map, Prod.exists] at he
    rcases he with h1 | ⟨a, b, hab, habe⟩
    · exact hacc.2 e h1
    · have hp := hov.2 (a, b) hab
      subst habe
      simp only at hp ⊢
      omega

/-- Folding merge steps over a list of well-formed model pairs keeps the map
well-formed and sums the entry counts. -/
theorem mergeAll_valid :
    ∀ (rest : List ((Nat → Nat) × OrganIndexMap)) (base : (Nat → Nat) × OrganIndexMap),
    validMap base.2 → (∀ p ∈ rest, validMap p.2) →
    validMap (mergeAll base rest).2 ∧
    (mergeAll base rest).2.length = base.2.length + (rest.map (fun p => p.2.length)).sum := by
  intro rest
  induction rest with
  | nil =>
    intro base hbase _
    exact ⟨hbase, by simp [mergeAll]⟩
  | cons p t ih =>
    intro base hbase hall
    have hp : validMap p.2 := hall p (List.mem_cons_self _ _)
    have hstep := merge_step_valid base.1 p.1 base.2 p.2 hbase hp
    have hrec := ih (add_model_label_image base.1 base.2 p.1 p.2)
      hstep.1 (fun q hq => hall q (List.mem_cons_of_mem _ hq))
    have hm : mergeAll base (p :: t) =
        mergeAll (add_model_label_image base.1 base.2 p.1 p.2) t := by
      simp [mergeAll]
    rw [hm]
    refine ⟨hrec.1, ?_⟩
    rw [hrec.2, hstep.2]
    simp [List.map_cons, List.sum_cons]
    omega

/-- A merge step keeps every nonzero accumulator label unchanged. -/
theorem merge_keep_nonzero (accImg ovImg : Nat → Nat) (accMap ovMap : OrganIndexMap)
    (v : Nat) (h : accImg v ≠ 0) :
    (add_model_label_image accImg accMap ovImg ovMap).1 v = accImg v := by
  simp [add_model_label_image, h]

/-- C3: one merge step over two well-formed organ-index maps with disjoint
organ-name sets (their indices may be disjoint or colliding — no constraint)
yields a map whose entry count is the sum of the two inputs' entry counts and
whose indices are pairwise distinct; and folding merge steps over a list of
well-formed model pairs yields a final map whose cardinality is the sum of
all per-model organ counts. -/
theorem c3_merge_cardinality :
    (∀ (accImg ovImg : Nat → Nat) (accMap ovMap : OrganIndexMap),
      validMap accMap → validMap ovMap →
      (∀ n, n ∈ accMap.map Prod.snd → n ∉ ovMap.map Prod.snd) →
      (add_model_label_image accImg accMap ovImg ovMap).2.length =
        accMap.length + ovMap.length ∧
      ((add_model_label_image accImg accMap ovImg ovMap).2.map Prod.fst).Nodup) ∧
    (∀ (base : (Nat → Nat) × OrganIndexMap) (rest : List ((Nat → Nat) × OrganIndexMap)),
      validMap base.2 → (∀ p ∈ rest, validMap p.2) →
      (mergeAll base rest).2.length =
        base.2.length + (rest.map (fun p => p.2.length)).sum) := by
  constructor
  · intro accImg ovImg accMap ovMap hacc hov _
    have h := merge_step_valid accImg ovImg accMap ovMap hacc hov
    exact ⟨h.2, h.1.1⟩
  · intro base rest hbase hall
    exact (mergeAll_valid rest base hbase hall).2

/-- A label volume with label 1 at voxel 0 only. -/
def liverImg : Nat → Nat := fun v => if v = 0 then 1 else 0

/-- A label volume with label 1 at every voxel. -/
def lungImg : Nat → Nat := fun _ => 1

/-- Witness for C3 (spec scenario B's maps): merging `{1: liver}` with
`{1: lung}` gives two entries with distinct indices, and the two-model fold
has total cardinality 2. -/
theorem c3_merge_cardinality_witness :
    (add_model_label_image liverImg [(1, "liver")] lungImg [(1, "lung")]).2.length = 2 ∧
    ((add_model_label_image liverImg [(1, "liver")] lungImg [(1, "lung")]).2.map
      Prod.fst).Nodup ∧
    (mergeAll (liverImg, [(1, "liver")]) [(lungImg, [(1, "lung")])]).2.length = 2 :=
  ⟨(c3_merge_cardinality.1 liverImg lungImg [(1, "liver")] [(1, "lung")]
      (by constructor <;> decide) (by constructor <;> decide) (by decide)).1,
   (c3_merge_cardinality.1 liverImg lungImg [(1, "liver")] [(1, "lung")]
      (by constructor <;> decide) (by constructor <;> decide) (by decide)).2,
   c3_merge_cardinality.2 (liverImg, [(1, "liver")]) [(lungImg, [(1, "lung")])]
      (by constructor <;> decide)
      (by intro p hp; rcases List.mem_singleton.mp hp with h; rw [h]; constructor <;> decide)⟩

/-- C4: per voxel, a merge step returns the accumulator's label whenever it is
nonzero (the overlay's never); when the accumulator's label is zero and the
overlay's is nonzero, it returns the overlay's label remapped to an index not
present in the accumulator's map; folded over the model list, the first
model's labels have voxel-priority over every later model. -/
theorem c4_merge_priority :
    (∀ (accImg ovImg : Nat → Nat) (accMap ovMap : OrganIndexMap) (v : Nat),
      (accImg v ≠ 0 → (add_model_label_image accImg accMap ovImg ovMap).1 v = accImg v) ∧
      (accImg v = 0 → ovImg v ≠ 0 →
        (add_model_label_image accImg accMap ovImg ovMap).1 v = ovImg v + maxIndex accMap ∧
        (ovImg v + maxIndex accMap) ∉ accMap.map Prod.fst)) ∧
    (∀ (base : (Nat → Nat) × OrganIndexMap) (rest : List ((Nat → Nat) × OrganIndexMap))
      (v : Nat), base.1 v ≠ 0 → (mergeAll base rest).1 v = base.1 v) := by
  constructor
  · intro accImg ovImg accMap ovMap v
    constructor
    · intro h
      exact merge_keep_nonzero accImg ovImg accMap ovMap v h
    · intro h0 hov
      refine ⟨by simp [add_model_label_image, h0, hov], ?_⟩
      intro hmem
      rcases List.mem_map.mp hmem with ⟨e, he, hei⟩
      have h1 : e.1 ≤ maxIndex accMap := le_maxIndex accMap e he
      omega
  · intro base rest
    induction rest generalizing base with
    | nil => intro v h; simp [mergeAll]
    | cons p t ih =>
      intro v h
      have hm : mergeAll base (p :: t) =
          mergeAll (add_model_label_image base.1 base.2 p.1 p.2) t := by
        simp [mergeAll]
      rw [hm]
      have hkeep := merge_keep_nonzero base.1 p.1 base.2 p.2 v h
      have hnz : (add_model_label_image base.1 base.2 p.1 p.2).1 v ≠ 0 := by
        rw [hkeep]; exact h
      rw [ih (add_model_label_image base.1 base.2 p.1 p.2) v hnz, hkeep]

/-- Witness for C4 (spec scenario B): base has liver label 1 at voxel 0,
overlay has lung label 1 everywhere: at overlapping voxel 0 the merged label
stays 1 (liver), at voxel 1 it becomes 2 (lung remapped past the base map's
maximum index), and 2 is no index of the base map. -/
theorem c4_merge_priority_witness :
    (add_model_label_image liverImg [(1, "liver")] lungImg [(1, "lung")]).1 0 = liverImg 0 ∧
    (add_model_label_image liverImg [(1, "liver")] lungImg [(1, "lung")]).1 1 =
      lungImg 1 + maxIndex [(1, "liver")] ∧
    (lungImg 1 + maxIndex [(1, "liver")]) ∉ [(1, "liver")].map Prod.fst ∧
    (mergeAll (liverImg, [(1, "liver")]) [(lungImg, [(1, "lung")])]).1 0 = liverImg 0 :=
  ⟨((c4_merge_priority.1 liverImg lungImg [(1, "liver")] [(1, "lung")] 0).1 (by decide)),
   ((c4_merge_priority.1 liverImg lungImg [(1, "liver")] [(1, "lung")] 1).2
      (by decide) (by decide)).1,
   ((c4_merge_priority.1 liverImg lungImg [(1, "liver")] [(1, "lung")] 1).2
      (by decide) (by decide)).2,
   c4_merge_priority.2 (liverImg, [(1, "liver")]) [(lungImg, [(1, "lung")])] 0 (by decide)⟩

/-- Modelled from the spec: the model registry entry behind `models.Model`
(not under src/) — a label file-name prefix used to locate the model's
segmentation file on disk (`multilabel_prefix` in the source) and the model's
organ-index map (spec section 6, model registry). -/
structure ModelRecord where
  file_tag : String
  organ_indices : OrganIndexMap

/-- The failure modes of the merge wrapper: `indexError` is Python's unguarded
`IndexError` from `[0]` on an empty lookup result (combine_multi_model_labels.py
lines 14 and 20); `fileNotFound` is the explicit missing-file error of the
spec's error taxonomy (section 7), which the code never raises. -/
inductive MergeFailure where
  | indexError
  | fileNotFound (identifier : String)

/-- The outcome of a successful merge: the combined label volume, the combined
organ-index map, and the paths of the files persisted for them. -/
structure MergeResult where
  image : Nat → Nat
  organMap : OrganIndexMap
  writes : List String

/-- Modelled from the spec: `file_utilities.get_files` (not under src/) —
the files of a directory whose names start with the given label prefix and
end with one of the given suffixes. -/
def get_files (dirFiles : List String) (tag : String) (suffixes : List String) :
    List String :=
  dirFiles.filter (fun f =>
    List.isPrefixOf tag.toList f.toList &&
    suffixes.any (fun s => List.isSuffixOf s.toList f.toList))

/-- Embeds `os.path.join` for one path component. -/
def os_path_join (dir name : String) : String := dir ++ "/" ++ name

/-- The loop of combine_multi_model_labels.py lines 18-22: for every later
model, look up its segmentation file (`get_files(...)[0]` — an unguarded
`IndexError` when no file matches) and merge it into the accumulator. -/
def mergeLoop (registry : String → ModelRecord) (readImage : String → Nat → Nat)
    (dirFiles : List String) (acc : (Nat → Nat) × OrganIndexMap) :
    List String → Except MergeFailure ((Nat → Nat) × OrganIndexMap)
  | [] => Except.ok acc
  | ident :: rest =>
    match (get_files dirFiles (registry ident).file_tag [".nii", ".nii.gz"]).head? with
    | none => Except.error MergeFailure.indexError
    | some p =>
      mergeLoop registry readImage dirFiles
        (add_model_label_image acc.1 acc.2 (readImage p) (registry ident).organ_indices)
        rest

/-- Embeds `create_multi_model_label_segmentation`
(combine_multi_model_labels.py lines 10-31).  The registry and image reader
stand for the external model registry and `SimpleITK.ReadImage`; persistence
is modelled by returning the list of file paths written at lines 24-29. -/
def create_multi_model_label_segmentation (registry : String → ModelRecord)
    (readImage : String → Nat → Nat) (dirFiles : List String)
    (segmentation_directory : String) (model_identifiers : List String) :
    Except MergeFailure MergeResult :=
  match model_identifiers with
  | [] => Except.error MergeFailure.indexError
  | first :: rest =>
    match (get_files dirFiles (registry first).file_tag [".nii", ".nii.gz"]).head? with
    | none => Except.error MergeFailure.indexError
    | some basePath =>
      match mergeLoop registry readImage dirFiles
          (readImage basePath, (registry first).organ_indices) rest with
      | Except.error e => Except.error e
      | Except.ok r =>
        Except.ok ⟨r.1, r.2,
          [os_path_join segmentation_directory "combined_segmentations.nii.gz",
           os_path_join segmentation_directory "combined_segmentations.json"]⟩

/-- A registry with model "a" tagged "A_" and every other model tagged "B_". -/
def regMerge : String → ModelRecord := fun s =>
  if s = "a" then ⟨"A_", [(1, "liver")]⟩ else ⟨"B_", [(1, "lung")]⟩

/-- C7: when a requested model's segmentation file is absent from the
directory (here model "b": no file tagged "B_" exists), the merge fails with
the unguarded lookup failure from indexing the empty `get_files` result — not
with the explicit file-not-found error naming the problem. -/
theorem c7_missing_file_index_error :
    create_multi_model_label_segmentation regMerge (fun _ _ => 0) ["A_seg.nii"]
      "segdir" ["a", "b"] = Except.error MergeFailure.indexError ∧
    create_multi_model_label_segmentation regMerge (fun _ _ => 0) ["A_seg.nii"]
      "segdir" ["a", "b"] ≠ Except.error (MergeFailure.fileNotFound "b") := by
  refine ⟨rfl, ?_⟩
  intro h
  rw [show create_multi_model_label_segmentation regMerge (fun _ _ => 0) ["A_seg.nii"]
      "segdir" ["a", "b"] = Except.error MergeFailure.indexError from rfl] at h
  exact MergeFailure.noConfusion (Except.error.inj h)

/-- Whether a merge outcome succeeded. -/
def mergeSucceeded (e : Except MergeFailure MergeResult) : Bool :=
  match e with
  | Except.ok _ => true
  | Except.error _ => false

/-- The file paths a merge outcome persisted. -/
def mergeWrittenFiles (e : Except MergeFailure MergeResult) : List String :=
  match e with
  | Except.ok r => r.writes
  | Except.error _ => []

/-- C8: every successful merge persists the combined volume and its index map
as exactly the pair of fixed, input-independent file names
`combined_segmentations.nii.gz` and `combined_segmentations.json` inside the
segmentation output directory. -/
theorem c8_fixed_output_names (registry : String → ModelRecord)
    (readImage : String → Nat → Nat) (dirFiles : List String)
    (segmentation_directory : String) (model_identifiers : List String)
    (h : mergeSucceeded (create_multi_model_label_segmentation registry readImage
      dirFiles segmentation_directory model_identifiers) = true) :
    mergeWrittenFiles (create_multi_model_label_segmentation registry readImage
      dirFiles segmentation_directory model_identifiers) =
      [os_path_join segmentation_directory "combined_segmentations.nii.gz",
       os_path_join segmentation_directory "combined_segmentations.json"] := by
  cases model_identifiers with
  | nil => simp [create_multi_model_label_segmentation, mergeSucceeded] at h
  | cons first rest =>
    cases hf : (get_files dirFiles (registry first).file_tag
        [".nii", ".nii.gz"]).head? with
    | none =>
      simp [create_multi_model_label_segmentation, hf, mergeSucceeded] at h
    | some basePath =>
      cases hm : mergeLoop registry readImage dirFiles
          (readImage basePath, (registry first).organ_indices) rest with
      | error e =>
        simp [create_multi_model_label_segmentation, hf, hm, mergeSucceeded] at h
      | ok r =>
        simp [create_multi_model_label_segmentation, hf, hm, mergeWrittenFiles]

/-- Witness for C8: a concrete successful single-model merge writes exactly
the fixed pair of output paths. -/
theorem c8_fixed_output_names_witness :
    mergeWrittenFiles (create_multi_model_label_segmentation regMerge (fun _ _ => 0)
      ["A_seg.nii"] "segdir" ["a"]) =
      [os_path_join "segdir" "combined_segmentations.nii.gz",
       os_path_join "segdir" "combined_segmentations.json"] :=
  c8_fixed_output_names regMerge (fun _ _ => 0) ["A_seg.nii"] "segdir" ["a"] rfl
